import Mathlib

/-!
# Formal model of the hybrid video-post recommendation engine

Shallow embedding of `src/utils/recommenders.py` (class `RecommendationEngine`),
together with the pieces of `src/config.py` it reads.

Modelling conventions:
* `pandas.Series` values indexed by post ids are association lists
  `List (Int × ℚ)`; positionally-aligned numeric vectors are `List ℚ`.
* All real arithmetic of the engine is carried out over `ℚ`.  The only claims
  that touch the numeric values (hybrid weighting, MAE/MSE) are exact
  algebraic identities that hold equally over floats.
* Python's salted string `hash` is an explicit parameter `hash : String → Int`;
  `Int`'s `%` (`Int.emod`) agrees with Python's `%` on positive moduli.
* `scipy.sparse.linalg.svds` is a numerical routine taken as a parameter of
  `prepare_collaborative_model`; its argument validation (it raises unless
  `0 < k < min(A.shape)`), which alone decides construction success, is
  modelled explicitly.
* `pandas.Series.sort_values(ascending=False)` computes a stable ascending
  argsort of the values and then reverses the whole indexer
  (`pandas.core.sorting.nargsort`); `ranked_rows` models exactly that.
* `evaluate` returns `none` for the `{MAE: inf, RMSE: inf}` sentinel and
  `some (mae, mse)` for `{MAE: mae, RMSE: Real.sqrt mse}` (ℚ has no
  infinity; RMSE is the square root of the returned mean squared error).
-/

/-- `Config.TOP_N_RECOMMENDATIONS` from `src/config.py`. -/
def TOP_N_RECOMMENDATIONS : Nat := 10

/-- One row of the post feature table `self.posts_df`.

The `category` column holds the raw API value: `none` models a falsy cell
(Python `None` or an empty dict), `some oid` models a dict whose `"id"` entry
is `oid` (`none` inside when the key is absent, in which case
`x.get("id")` yields Python `None`). -/
structure Post where
  id : Int
  title : String
  post_summary : String
  category : Option (Option Int)
  view_count : ℚ
  like_count : ℚ
  avg_rating : ℚ
deriving DecidableEq, Repr

/-- One rating interaction record: a row of `self.user_interactions`
(and of any `ground_truth` frame passed to `evaluate`). -/
structure Interaction where
  user_id : Int
  post_id : Int
  rating_percent : ℚ
deriving DecidableEq, Repr

/-- The engine's read-only state after `__init__` completes:
`posts_df`, `content_similarity_matrix`, and the collaborative model's
`user_ids`, `post_ids`, `user_factors`, `post_factors`. -/
structure Engine where
  posts : List Post
  content_similarity_matrix : List (List ℚ)
  user_ids : List Int
  post_ids : List Int
  user_factors : List (List ℚ)
  post_factors : List (List ℚ)
deriving Repr

/-- `np.dot` on one-dimensional vectors. -/
def dotQ (xs ys : List ℚ) : ℚ := ((xs.zip ys).map (fun p => p.1 * p.2)).sum

/-- `content_scores = self.content_similarity_matrix.dot(view_count + like_count)`
(`get_recommendations`, line 111): a positionally-indexed vector. -/
def content_scores (e : Engine) : List ℚ :=
  e.content_similarity_matrix.map
    (fun row => dotQ row (e.posts.map (fun p => p.view_count + p.like_count)))

/-- `RecommendationEngine._collaborative_score`: for an unknown `user_id`,
`pd.Series(0, index=self.posts_df["id"])`; otherwise the dot products of
the post factors with the user's factor row, indexed by `self.post_ids`. -/
def collaborative_score (e : Engine) (user_id : Int) : List (Int × ℚ) :=
  if user_id ∉ e.user_ids then
    e.posts.map (fun p => (p.id, (0 : ℚ)))
  else
    let user_idx := e.user_ids.indexOf user_id
    e.post_ids.zip
      (e.post_factors.map (fun row => dotQ row (e.user_factors.getD user_idx [])))

/-- `Series.reindex(idx, fill_value=0)`: the value stored at a matching label,
else `0`.  (pandas raises on a duplicate source label; every source index in
the program is unique, and `find?` takes the first match.) -/
def reindex (s : List (Int × ℚ)) (idx : List Int) : List ℚ :=
  idx.map (fun i => ((s.find? (fun p => p.1 == i)).map Prod.snd).getD 0)

/-- `hybrid_scores = 0.6 * content_scores
      + 0.4 * collaborative_scores.reindex(self.posts_df["id"], fill_value=0)`
(lines 119-121): a numpy vector plus a Series adds positionally. -/
def hybrid_scores (e : Engine) (user_id : Int) : List ℚ :=
  List.zipWith (fun c v => (0.6 : ℚ) * c + (0.4 : ℚ) * v)
    (content_scores e)
    (reindex (collaborative_score e user_id) (e.posts.map (fun p => p.id)))

/-- The category-filter predicate
`lambda x: x.get("id") == category_id if x else False` (lines 125-127). -/
def category_matches (category_id : Int) : Option (Option Int) → Bool
  | none => false
  | some oid => oid == some category_id

/-- `RecommendationEngine._get_user_id`:
`hash(username) % len(self.user_ids)` (line 195). -/
def get_user_id (hash : String → Int) (e : Engine) (username : String) : Int :=
  hash username % (e.user_ids.length : Int)

/-- The rows of the hybrid-score Series as `(post, score)` pairs, after the
category filter.  The filter runs only under `if category_id:` — Python
truthiness, so it is skipped both for `None` and for `0` (line 124). -/
def scored_rows (e : Engine) (user_id : Int) (category_id : Option Int) :
    List (Int × ℚ) :=
  let rows := e.posts.zip (hybrid_scores e user_id)
  let kept := match category_id with
    | none => rows
    | some c =>
        if c = 0 then rows
        else rows.filter (fun r => category_matches c r.1.category)
  kept.map (fun r => (r.1.id, r.2))

/-- `Series.sort_values(ascending=False)` as pandas computes it
(`nargsort`): tag every row with its position, stable-sort ascending by
value, then reverse the whole order.  Rows come out as
`(original position, post id, score)` triples. -/
def ranked_rows (l : List (Int × ℚ)) : List (Nat × Int × ℚ) :=
  (List.insertionSort (fun a b => a.2.2 ≤ b.2.2) l.enum).reverse

/-- `.sort_values(ascending=False).head(TOP_N).index.tolist()` (lines 131-135). -/
def rank_desc (l : List (Int × ℚ)) : List Int :=
  ((ranked_rows l).map (fun t => t.2.1)).take TOP_N_RECOMMENDATIONS

/-- `RecommendationEngine.get_recommendations`.  `mood` is accepted and
never read (lines 91-137). -/
def get_recommendations (hash : String → Int) (e : Engine) (username : String)
    (category_id : Option Int) (mood : Option String) : List Int :=
  let user_id := get_user_id hash e username
  rank_desc (scored_rows e user_id category_id)

/-- `pandas.Series.unique()`: distinct values in order of first appearance
(accumulator form so the definition reduces in the kernel). -/
def unique_vals : List Int → List Int → List Int
  | [], acc => acc.reverse
  | x :: xs, acc => if x ∈ acc then unique_vals xs acc else unique_vals xs (x :: acc)

/-- `ground_truth["user_id"].unique()` (line 161). -/
def unique_users (gt : List Interaction) : List Int :=
  unique_vals (gt.map (fun i => i.user_id)) []

/-- The `(actual, predicted)` pairs one user contributes inside `evaluate`'s
loop body (lines 166-178), given that user's prediction Series `s`. -/
def user_pairs (s : List (Int × ℚ)) (gt : List Interaction) (uid : Int) :
    List (ℚ × ℚ) :=
  let actual := gt.filter (fun i => i.user_id == uid)
  (actual.map (fun i => i.rating_percent)).zip
    (reindex s (actual.map (fun i => i.post_id)))

/-- `evaluate`'s user loop (lines 161-180).  The per-user computation is a
parameter `score` so that the loop's `try/except` policy is itself part of
the model: a failure is logged and skipped (`acc` unchanged), never
re-raised. -/
def accumulate_pairs (score : Int → Except String (List (Int × ℚ)))
    (uids : List Int) (gt : List Interaction) : List (ℚ × ℚ) :=
  (unique_users gt).foldl
    (fun acc uid =>
      if uid ∈ uids then
        match score uid with
        | .ok s => acc ++ user_pairs s gt uid
        | .error _ => acc
      else acc)
    []

/-- The loop body of `accumulate_pairs`, with the `try/except` resolved:
a failing user contributes no pairs. -/
def pairs_of_user (score : Int → Except String (List (Int × ℚ)))
    (gt : List Interaction) (u : Int) : List (ℚ × ℚ) :=
  match score u with
  | .ok s => user_pairs s gt u
  | .error _ => []

/-- `sklearn.metrics.mean_absolute_error`. -/
def mae_of (pairs : List (ℚ × ℚ)) : ℚ :=
  ((pairs.map (fun p => |p.1 - p.2|)).sum) / (pairs.length : ℚ)

/-- `sklearn.metrics.mean_squared_error` (the RMSE the code returns is
`np.sqrt` of this). -/
def mse_of (pairs : List (ℚ × ℚ)) : ℚ :=
  ((pairs.map (fun p => (p.1 - p.2) ^ 2)).sum) / (pairs.length : ℚ)

/-- `RecommendationEngine.evaluate` (lines 139-188), parameterized by the
per-user scorer.  `none` models the `{MAE: inf, RMSE: inf}` sentinel;
`some (mae, mse)` models `{MAE: mae, RMSE: sqrt mse}`. -/
def evaluate_with (score : Int → Except String (List (Int × ℚ)))
    (uids : List Int) (gt : List Interaction) : Option (ℚ × ℚ) :=
  if gt.isEmpty then none
  else
    let pairs := accumulate_pairs score uids gt
    if pairs.isEmpty then none
    else some (mae_of pairs, mse_of pairs)

/-- `RecommendationEngine.evaluate` with its actual per-user computation,
`self._collaborative_score` — a total function, wrapped in `.ok`.  The
`ground_truth=None` default passes `self.user_interactions` here explicitly. -/
def evaluate (e : Engine) (gt : List Interaction) : Option (ℚ × ℚ) :=
  evaluate_with (fun uid => .ok (collaborative_score e uid)) e.user_ids gt

/-- One pivot-table cell: `aggfunc="first"` then `.fillna(0)` (lines 60-65). -/
def pivot_cell (l : List Interaction) (u p : Int) : ℚ :=
  (((l.find? (fun i => i.user_id == u && i.post_id == p)).map
      (fun i => i.rating_percent)).getD 0)

/-- `pivot_table` sorts its index and columns ascending over the distinct
values appearing in the frame. -/
def sorted_unique (l : List Int) : List Int :=
  List.insertionSort (· ≤ ·) l.dedup

/-- The dense user×post rating matrix `user_post_matrix.values`. -/
def rating_matrix (l : List Interaction) (us ps : List Int) : List (List ℚ) :=
  us.map (fun u => ps.map (fun p => pivot_cell l u p))

/-- The collaborative model state set by `_prepare_collaborative_model`. -/
structure CollabModel where
  user_ids : List Int
  post_ids : List Int
  user_factors : List (List ℚ)
  post_factors : List (List ℚ)

/-- `np.dot(u, np.diag(sigma))`: scale the columns of `u` by `sigma`. -/
def scale_cols (u : List (List ℚ)) (sigma : List ℚ) : List (List ℚ) :=
  u.map (fun row => row.zipWith (· * ·) sigma)

/-- `vt.T` for a `k × p` matrix stored row-major. -/
def transposeQ (m : List (List ℚ)) (cols : Nat) : List (List ℚ) :=
  (List.range cols).map (fun j => m.map (fun row => row.getD j 0))

/-- `RecommendationEngine._prepare_collaborative_model` (lines 55-78).
`svds` is numerical and is passed as the parameter `svd` returning
`(u, sigma, vt)`; what the model keeps of it is its argument validation:
`scipy.sparse.linalg.svds` raises a `ValueError` unless
`0 < k < min(A.shape)`, and `k = min(50, min(shape) - 1)` (line 73).
With no interactions at all the Python code already fails inside
`pivot_table` (`KeyError`), which the same guard covers (`k = -1`). -/
def prepare_collaborative_model
    (svd : List (List ℚ) → Nat → (List (List ℚ) × List ℚ × List (List ℚ)))
    (l : List Interaction) : Except String CollabModel :=
  let us := sorted_unique (l.map (fun i => i.user_id))
  let ps := sorted_unique (l.map (fun i => i.post_id))
  let k : Int := min 50 (min (us.length : Int) (ps.length : Int) - 1)
  if 0 < k ∧ k < min (us.length : Int) (ps.length : Int) then
    let r := svd (rating_matrix l us ps) k.toNat
    Except.ok { user_ids := us, post_ids := ps,
                user_factors := scale_cols r.1 r.2.1,
                post_factors := transposeQ r.2.2 ps.length }
  else
    Except.error "svds requires 0 < k < min(A.shape): insufficient rating data"

/-- Ascending lexicographic order on `(position, id, score)` rows:
smaller score first, and among equal scores the smaller original position
first.  This is what a stable ascending argsort produces. -/
def asc_lex (a b : Nat × Int × ℚ) : Prop :=
  a.2.2 < b.2.2 ∨ (a.2.2 = b.2.2 ∧ a.1 < b.1)

/-- Descending lexicographic order on `(position, id, score)` rows: larger
score first, and among equal scores the larger original position first.
This is the order `sort_values(ascending=False)` actually realizes. -/
def desc_lex (a b : Nat × Int × ℚ) : Prop :=
  b.2.2 < a.2.2 ∨ (b.2.2 = a.2.2 ∧ b.1 < a.1)

/-- A stand-in for Python's salted string hash in concrete computations:
the counterexamples below hold for every choice of hash function. -/
def exHash : String → Int := fun _ => 1

/-- A tiny concrete engine: two posts with identical popularity, identity
similarity matrix, rated users `5` and `7` on posts `10` and `20`. -/
def E2 : Engine :=
  { posts := [
      { id := 1, title := "cats", post_summary := "cute cats",
        category := some (some 3), view_count := 10, like_count := 5, avg_rating := 50 },
      { id := 2, title := "dogs", post_summary := "loyal dogs",
        category := none, view_count := 10, like_count := 5, avg_rating := 50 } ],
    content_similarity_matrix := [[1, 0], [0, 1]],
    user_ids := [5, 7],
    post_ids := [10, 20],
    user_factors := [[1], [2]],
    post_factors := [[3], [4]] }

/-- A per-user scorer that fails on user `5` and succeeds elsewhere, used to
exercise `evaluate`'s `try/except`. -/
def badScore : Int → Except String (List (Int × ℚ)) := fun u =>
  if u = 5 then .error "boom" else .ok [(10, 50)]

/-- Ground truth with two users, both known to `E2`. -/
def gtB : List Interaction := [⟨5, 10, 80⟩, ⟨7, 10, 60⟩]

/-- Ground truth with one known user (`5`) rating post `10`. -/
def gtA : List Interaction := [⟨5, 10, 80⟩]

lemma asc_lex_trans {a b c : Nat × Int × ℚ} (h₁ : asc_lex a b) (h₂ : asc_lex b c) :
    asc_lex a c := by
  rcases h₁ with h₁ | ⟨e₁, p₁⟩ <;> rcases h₂ with h₂ | ⟨e₂, p₂⟩
  · exact Or.inl (h₁.trans h₂)
  · exact Or.inl (e₂ ▸ h₁)
  · exact Or.inl (e₁ ▸ h₂)
  · exact Or.inr ⟨e₁.trans e₂, p₁.trans p₂⟩

lemma orderedInsert_asc_lex (x : Nat × Int × ℚ) :
    ∀ l : List (Nat × Int × ℚ), l.Pairwise asc_lex → (∀ y ∈ l, x.1 < y.1) →
      (List.orderedInsert (fun a b => a.2.2 ≤ b.2.2) x l).Pairwise asc_lex
  | [], _, _ => List.pairwise_singleton _ _
  | y :: ys, hl, hpos => by
    rw [List.orderedInsert]
    by_cases h : x.2.2 ≤ y.2.2
    · rw [if_pos h]
      have hxy : asc_lex x y := by
        rcases lt_or_eq_of_le h with h' | h'
        · exact Or.inl h'
        · exact Or.inr ⟨h', hpos y (List.mem_cons_self _ _)⟩
      refine List.Pairwise.cons (fun z hz => ?_) hl
      rcases List.mem_cons.mp hz with rfl | hz
      · exact hxy
      · exact asc_lex_trans hxy (List.rel_of_pairwise_cons hl hz)
    · rw [if_neg h]
      have hyx : y.2.2 < x.2.2 := lt_of_not_le h
      refine List.Pairwise.cons (fun z hz => ?_)
        (orderedInsert_asc_lex x ys hl.of_cons
          (fun y' hy' => hpos y' (List.mem_cons_of_mem _ hy')))
      rcases (List.mem_orderedInsert _).mp hz with rfl | hz
      · exact Or.inl hyx
      · exact List.rel_of_pairwise_cons hl hz

lemma insertionSort_asc_lex :
    ∀ l : List (Nat × Int × ℚ), l.Pairwise (fun a b => a.1 < b.1) →
      (List.insertionSort (fun a b => a.2.2 ≤ b.2.2) l).Pairwise asc_lex
  | [], _ => List.Pairwise.nil
  | x :: xs, hp => by
    rw [List.insertionSort]
    refine orderedInsert_asc_lex x _ (insertionSort_asc_lex xs hp.of_cons) ?_
    intro y hy
    exact List.rel_of_pairwise_cons hp
      ((List.perm_insertionSort _ xs).mem_iff.mp hy)

lemma le_fst_of_mem_enumFrom {α : Type _} {y : ℕ × α} :
    ∀ {l : List α} {n : ℕ}, y ∈ List.enumFrom n l → n ≤ y.1
  | [], _, h => absurd h (List.not_mem_nil _)
  | x :: xs, n, h => by
    rw [List.enumFrom] at h
    rcases List.mem_cons.mp h with rfl | h
    · exact le_refl _
    · exact Nat.le_of_succ_le (le_fst_of_mem_enumFrom h)

lemma enumFrom_pairwise_fst_lt {α : Type _} :
    ∀ (l : List α) (n : ℕ), (List.enumFrom n l).Pairwise (fun a b => a.1 < b.1)
  | [], _ => List.Pairwise.nil
  | x :: xs, n => by
    rw [List.enumFrom]
    exact List.Pairwise.cons
      (fun y hy => Nat.lt_of_succ_le (le_fst_of_mem_enumFrom hy))
      (enumFrom_pairwise_fst_lt xs (n + 1))

lemma enum_pairwise_fst_lt {α : Type _} (l : List α) :
    l.enum.Pairwise (fun a b => a.1 < b.1) :=
  enumFrom_pairwise_fst_lt l 0

/-- The ranked rows of a score table are strictly ordered: descending by
score, and among equal scores descending by original position. -/
lemma ranked_rows_pairwise_desc (l : List (Int × ℚ)) :
    (ranked_rows l).Pairwise desc_lex := by
  rw [ranked_rows, List.pairwise_reverse]
  exact insertionSort_asc_lex l.enum (enum_pairwise_fst_lt l)

lemma ranked_rows_perm (l : List (Int × ℚ)) : (ranked_rows l).Perm l.enum :=
  (List.reverse_perm _).trans (List.perm_insertionSort _ _)

lemma map_snd_fst_enumFrom {α β : Type _} :
    ∀ (l : List (α × β)) (n : ℕ),
      (List.enumFrom n l).map (fun t => t.2.1) = l.map Prod.fst
  | [], _ => rfl
  | x :: xs, n => by
    rw [List.enumFrom, List.map, List.map, map_snd_fst_enumFrom xs (n + 1)]

lemma map_snd_fst_enum {α β : Type _} (l : List (α × β)) :
    l.enum.map (fun t => t.2.1) = l.map Prod.fst :=
  map_snd_fst_enumFrom l 0

lemma ranked_rows_map_perm (l : List (Int × ℚ)) :
    ((ranked_rows l).map (fun t => t.2.1)).Perm (l.map Prod.fst) :=
  map_snd_fst_enum l ▸ (ranked_rows_perm l).map (fun t => t.2.1)

lemma rank_desc_subset {l : List (Int × ℚ)} {x : Int} (hx : x ∈ rank_desc l) :
    x ∈ l.map Prod.fst :=
  (ranked_rows_map_perm l).mem_iff.mp
    ((List.take_sublist _ _).subset hx)

lemma rank_desc_nodup {l : List (Int × ℚ)} (h : (l.map Prod.fst).Nodup) :
    (rank_desc l).Nodup :=
  ((List.take_sublist _ _).nodup ((ranked_rows_map_perm l).nodup_iff.mpr h))

lemma rank_desc_length (l : List (Int × ℚ)) :
    (rank_desc l).length ≤ TOP_N_RECOMMENDATIONS := by
  rw [rank_desc, List.length_take]
  exact min_le_left _ _

lemma zip_map_fst_sublist {α β γ : Type _} (f : α → γ) :
    ∀ (l₁ : List α) (l₂ : List β),
      (((l₁.zip l₂).map (fun r => f r.1)).Sublist (l₁.map f))
  | [], _ => by simp
  | _ :: _, [] => by simp
  | a :: l₁, b :: l₂ => by
    rw [List.zip_cons_cons, List.map, List.map]
    exact (zip_map_fst_sublist f l₁ l₂).cons₂ _

lemma scored_rows_map_fst_sublist (e : Engine) (uid : Int) (cid : Option Int) :
    ((scored_rows e uid cid).map Prod.fst).Sublist (e.posts.map Post.id) := by
  have hkept : ∀ kept : List (Post × ℚ),
      kept.Sublist (e.posts.zip (hybrid_scores e uid)) →
      ((kept.map (fun r => (r.1.id, r.2))).map Prod.fst).Sublist
        (e.posts.map Post.id) := by
    intro kept hsub
    rw [List.map_map]
    exact (hsub.map (fun r => r.1.id)).trans
      (zip_map_fst_sublist Post.id e.posts (hybrid_scores e uid))
  cases cid with
  | none => exact hkept _ (List.Sublist.refl _)
  | some c =>
      by_cases h : c = 0
      · show (((if c = 0 then e.posts.zip (hybrid_scores e uid)
            else (e.posts.zip (hybrid_scores e uid)).filter
              (fun r => category_matches c r.1.category)).map
                (fun r => (r.1.id, r.2))).map Prod.fst).Sublist _
        rw [if_pos h]
        exact hkept _ (List.Sublist.refl _)
      · show (((if c = 0 then e.posts.zip (hybrid_scores e uid)
            else (e.posts.zip (hybrid_scores e uid)).filter
              (fun r => category_matches c r.1.category)).map
                (fun r => (r.1.id, r.2))).map Prod.fst).Sublist _
        rw [if_neg h]
        exact hkept _ (List.filter_sublist _)

lemma category_matches_iff (c : Int) (cat : Option (Option Int)) :
    category_matches c cat = true ↔ cat = some (some c) := by
  cases cat with
  | none => simp [category_matches]
  | some oid => simp [category_matches]

lemma reindex_length (s : List (Int × ℚ)) (idx : List Int) :
    (reindex s idx).length = idx.length :=
  List.length_map _ _

lemma reindex_zero_series (ps : List Post) (idx : List Int) :
    reindex (ps.map (fun p => (p.id, (0 : ℚ)))) idx = idx.map (fun _ => (0 : ℚ)) := by
  rw [reindex]
  refine List.map_congr_left (fun i _ => ?_)
  cases hfind : (ps.map (fun p => (p.id, (0 : ℚ)))).find? (fun p => p.1 == i) with
  | none => rfl
  | some r =>
      have hr := List.mem_of_find?_eq_some hfind
      rcases List.mem_map.mp hr with ⟨p, _, rfl⟩
      rfl

lemma zipWith_hybrid_const_zero {α : Type _} :
    ∀ (cs : List ℚ) (zs : List α), cs.length ≤ zs.length →
      List.zipWith (fun c v => (0.6 : ℚ) * c + (0.4 : ℚ) * v) cs
          (zs.map (fun _ => (0 : ℚ)))
        = cs.map (fun c => (0.6 : ℚ) * c)
  | [], _, _ => by simp
  | c :: cs, [], h => by simp at h
  | c :: cs, z :: zs, h => by
    rw [List.map, List.zipWith_cons_cons, List.map,
      zipWith_hybrid_const_zero cs zs (Nat.le_of_succ_le_succ h)]
    norm_num

lemma mem_unique_vals {x : Int} :
    ∀ {l acc : List Int}, x ∈ unique_vals l acc ↔ x ∈ l ∨ x ∈ acc := by
  intro l
  induction l with
  | nil => intro acc; simp [unique_vals]
  | cons y ys ih =>
      intro acc
      rw [unique_vals]
      by_cases h : y ∈ acc
      · rw [if_pos h, ih]
        constructor
        · rintro (hx | hx)
          · exact Or.inl (List.mem_cons_of_mem _ hx)
          · exact Or.inr hx
        · rintro (hx | hx)
          · rcases List.mem_cons.mp hx with rfl | hx
            · exact Or.inr h
            · exact Or.inl hx
          · exact Or.inr hx
      · rw [if_neg h, ih]
        constructor
        · rintro (hx | hx)
          · exact Or.inl (List.mem_cons_of_mem _ hx)
          · rcases List.mem_cons.mp hx with rfl | hx
            · exact Or.inl (List.mem_cons_self _ _)
            · exact Or.inr hx
        · rintro (hx | hx)
          · rcases List.mem_cons.mp hx with rfl | hx
            · exact Or.inr (List.mem_cons_self _ _)
            · exact Or.inl hx
          · exact Or.inr (List.mem_cons_of_mem _ hx)

lemma mem_unique_users {u : Int} {gt : List Interaction} :
    u ∈ unique_users gt ↔ u ∈ gt.map (fun i => i.user_id) := by
  rw [unique_users, mem_unique_vals]
  simp

lemma user_pairs_length (s : List (Int × ℚ)) (gt : List Interaction) (uid : Int) :
    (user_pairs s gt uid).length
      = (gt.filter (fun i => i.user_id == uid)).length := by
  rw [user_pairs, List.length_zip, List.length_map, reindex_length, List.length_map,
    min_self]

lemma user_pairs_ne_nil {gt : List Interaction} {uid : Int}
    (hu : uid ∈ unique_users gt) (s : List (Int × ℚ)) :
    user_pairs s gt uid ≠ [] := by
  intro hnil
  have hlen := user_pairs_length s gt uid
  rw [hnil] at hlen
  rcases List.mem_map.mp (mem_unique_users.mp hu) with ⟨i, hi, rfl⟩
  have h1 : i ∈ gt.filter (fun i' => i'.user_id == i.user_id) :=
    List.mem_filter.mpr ⟨hi, by simp⟩
  exact List.ne_nil_of_mem h1 (List.length_eq_zero.mp (by simpa using hlen.symm))

lemma foldl_filter_flatMap (g : Int → List (ℚ × ℚ)) (P : Int → Bool) :
    ∀ (us : List Int) (acc : List (ℚ × ℚ)),
      us.foldl (fun acc u => if P u then acc ++ g u else acc) acc
        = acc ++ (us.filter P).flatMap g
  | [], acc => by simp
  | u :: us, acc => by
    rw [List.foldl_cons, List.filter_cons]
    by_cases h : P u
    · rw [if_pos h, if_pos h, foldl_filter_flatMap g P us (acc ++ g u),
        List.flatMap_cons, List.append_assoc]
    · rw [if_neg h, if_neg h, foldl_filter_flatMap g P us acc]

/-- What the `evaluate` loop accumulates: exactly the pairs of the users that
pass the `in self.user_ids` check, with each failed per-user computation
silently contributing nothing. -/
lemma accumulate_pairs_eq (score : Int → Except String (List (Int × ℚ)))
    (uids : List Int) (gt : List Interaction) :
    accumulate_pairs score uids gt
      = ((unique_users gt).filter (fun u => decide (u ∈ uids))).flatMap
          (pairs_of_user score gt) := by
  rw [accumulate_pairs]
  have hbody : (fun (acc : List (ℚ × ℚ)) (uid : Int) =>
      if uid ∈ uids then
        match score uid with
        | .ok s => acc ++ user_pairs s gt uid
        | .error _ => acc
      else acc)
    = (fun acc u => if decide (u ∈ uids) then acc ++ pairs_of_user score gt u
        else acc) := by
    funext acc u
    by_cases h : u ∈ uids
    · rw [if_pos h, if_pos (by simpa using h), pairs_of_user]
      cases score u with
      | ok s => rfl
      | error msg => rw [List.append_nil]
    · rw [if_neg h, if_neg (by simpa using h)]
  rw [hbody, foldl_filter_flatMap, List.nil_append]

lemma accumulate_pairs_eq_nil_iff (e : Engine) (gt : List Interaction) :
    accumulate_pairs (fun uid => .ok (collaborative_score e uid)) e.user_ids gt = []
      ↔ ∀ u ∈ unique_users gt, u ∉ e.user_ids := by
  rw [accumulate_pairs_eq, List.flatMap_eq_nil_iff]
  constructor
  · intro h u hu hmem
    have hfil : u ∈ (unique_users gt).filter (fun u => decide (u ∈ e.user_ids)) :=
      List.mem_filter.mpr ⟨hu, by simpa using hmem⟩
    exact user_pairs_ne_nil hu _ (h u hfil)
  · intro h u hu
    rcases List.mem_filter.mp hu with ⟨hu', hmem⟩
    exact absurd (by simpa using hmem) (h u hu')

lemma two_mul_abs_sum_le (x : ℚ) :
    ∀ l : List ℚ,
      2 * |x| * (l.map (fun d => |d|)).sum
        ≤ l.length * x ^ 2 + (l.map (fun d => d ^ 2)).sum
  | [] => by simp
  | d :: l => by
    have ih := two_mul_abs_sum_le x l
    have hd : 2 * |x| * |d| ≤ x ^ 2 + d ^ 2 := by
      have := two_mul_le_add_sq |x| |d|
      simpa [sq_abs, mul_assoc] using this
    rw [List.map, List.map, List.sum_cons, List.sum_cons, List.length_cons]
    push_cast
    nlinarith [hd, ih]

lemma abs_sum_sq_le :
    ∀ l : List ℚ,
      ((l.map (fun d => |d|)).sum) ^ 2 ≤ l.length * (l.map (fun d => d ^ 2)).sum
  | [] => by simp
  | d :: l => by
    have ih := abs_sum_sq_le l
    have h2 := two_mul_abs_sum_le d l
    have hs : 0 ≤ (l.map (fun d => |d|)).sum :=
      List.sum_nonneg (fun x hx => by
        rcases List.mem_map.mp hx with ⟨y, _, rfl⟩
        exact abs_nonneg y)
    rw [List.map, List.map, List.sum_cons, List.sum_cons, List.length_cons]
    push_cast
    nlinarith [ih, h2, sq_abs d, abs_nonneg d, hs]

lemma mae_of_nonneg (pairs : List (ℚ × ℚ)) : 0 ≤ mae_of pairs := by
  rw [mae_of]
  apply div_nonneg
  · exact List.sum_nonneg (fun x hx => by
      rcases List.mem_map.mp hx with ⟨p, _, rfl⟩
      exact abs_nonneg _)
  · exact_mod_cast Nat.zero_le _

lemma mse_of_nonneg (pairs : List (ℚ × ℚ)) : 0 ≤ mse_of pairs := by
  rw [mse_of]
  apply div_nonneg
  · exact List.sum_nonneg (fun x hx => by
      rcases List.mem_map.mp hx with ⟨p, _, rfl⟩
      exact sq_nonneg _)
  · exact_mod_cast Nat.zero_le _

lemma mae_sq_le_mse (pairs : List (ℚ × ℚ)) (hne : pairs ≠ []) :
    mae_of pairs ^ 2 ≤ mse_of pairs := by
  have hn : 0 < (pairs.length : ℚ) := by
    exact_mod_cast List.length_pos.mpr hne
  have hkey := abs_sum_sq_le (pairs.map (fun p => p.1 - p.2))
  rw [List.map_map, List.map_map, List.length_map] at hkey
  rw [mae_of, mse_of]
  rw [div_pow, div_le_div_iff (by positivity) hn]
  calc ((pairs.map (fun p => |p.1 - p.2|)).sum) ^ 2 * (pairs.length : ℚ)
      ≤ ((pairs.length : ℚ) * (pairs.map (fun p => (p.1 - p.2) ^ 2)).sum)
          * (pairs.length : ℚ) := by
        apply mul_le_mul_of_nonneg_right _ (le_of_lt hn)
        simpa [Function.comp] using hkey
    _ = (pairs.map (fun p => (p.1 - p.2) ^ 2)).sum * (pairs.length : ℚ) ^ 2 := by
        ring

lemma evaluate_none_iff (e : Engine) (gt : List Interaction) :
    evaluate e gt = none
      ↔ (gt = [] ∨ ∀ u ∈ unique_users gt, u ∉ e.user_ids) := by
  rw [evaluate, evaluate_with]
  by_cases h1 : gt.isEmpty
  · simp [h1, List.isEmpty_iff.mp h1]
  · rw [if_neg h1]
    by_cases h2 : (accumulate_pairs (fun uid => .ok (collaborative_score e uid))
        e.user_ids gt).isEmpty
    · rw [if_pos h2]
      simp only [true_iff]
      exact Or.inr ((accumulate_pairs_eq_nil_iff e gt).mp
        (List.isEmpty_iff.mp h2))
    · rw [if_neg h2]
      constructor
      · intro hc
        exact absurd hc (by simp)
      · rintro (hgt | hall)
        · exact absurd (by simp [hgt] : gt.isEmpty = true) h1
        · exact absurd (List.isEmpty_iff.mpr
            ((accumulate_pairs_eq_nil_iff e gt).mpr hall)) h2

lemma evaluate_eq_some {e : Engine} {gt : List Interaction} {m s : ℚ}
    (h : evaluate e gt = some (m, s)) :
    accumulate_pairs (fun uid => .ok (collaborative_score e uid)) e.user_ids gt ≠ []
    ∧ m = mae_of (accumulate_pairs (fun uid => .ok (collaborative_score e uid))
          e.user_ids gt)
    ∧ s = mse_of (accumulate_pairs (fun uid => .ok (collaborative_score e uid))
          e.user_ids gt) := by
  rw [evaluate, evaluate_with] at h
  by_cases h1 : gt.isEmpty
  · rw [if_pos h1] at h
    exact absurd h (by simp)
  · rw [if_neg h1] at h
    by_cases h2 : (accumulate_pairs (fun uid => .ok (collaborative_score e uid))
        e.user_ids gt).isEmpty
    · rw [if_pos h2] at h
      exact absurd h (by simp)
    · rw [if_neg h2] at h
      have := Option.some_injective _ h
      refine ⟨fun hnil => h2 (by simp [hnil]), ?_, ?_⟩
      · exact (congrArg Prod.fst this).symm
      · exact (congrArg Prod.snd this).symm

lemma scored_rows_some (e : Engine) (uid : Int) (c : Int) (hc : c ≠ 0) :
    scored_rows e uid (some c)
      = ((e.posts.zip (hybrid_scores e uid)).filter
          (fun r => category_matches c r.1.category)).map (fun r => (r.1.id, r.2)) := by
  simp only [scored_rows]
  rw [if_neg hc]

/-- Claim C1, as stated, is false: `_get_user_id` returns
`hash(username) % len(user_ids)`, which is a residue in `[0, len)` and not
in general a member of `user_ids`.  For the concrete engine `E2`, whose
rated users are `5` and `7`, the returned residue (here `1`) is unknown —
and this holds for every hash function, since no residue mod 2 is in
`{5, 7}`. -/
theorem c1_counterexample :
    E2.user_ids = [5, 7] ∧ get_user_id exHash E2 "alice" ∉ E2.user_ids :=
  ⟨rfl, by decide⟩

/-- Claim C1 (amended): for every hash function, engine and username, as
long as at least one rated user exists, `_get_user_id` returns a value in
`[0, len(user_ids))` — resolution never raises — but that value need not
be a member of `user_ids` (it is one only when `user_ids` happens to
contain it, e.g. when the rated user ids are exactly `0..n-1`). -/
theorem c1_user_id_in_range (hash : String → Int) (e : Engine)
    (username : String) (h : 0 < e.user_ids.length) :
    0 ≤ get_user_id hash e username
    ∧ get_user_id hash e username < (e.user_ids.length : Int) := by
  have hne : (e.user_ids.length : Int) ≠ 0 := by
    exact_mod_cast Nat.pos_iff_ne_zero.mp h
  exact ⟨Int.emod_nonneg _ hne, Int.emod_lt_of_pos _ (by exact_mod_cast h)⟩

/-- Witness for the amended C1 at a concrete input. -/
theorem c1_witness :
    0 < E2.user_ids.length
    ∧ (0 ≤ get_user_id exHash E2 "alice"
        ∧ get_user_id exHash E2 "alice" < (E2.user_ids.length : Int)) :=
  ⟨by decide, c1_user_id_in_range exHash E2 "alice" (by decide)⟩

/-- Claim C2, as stated, is false on ties: in `E2` both posts have the same
hybrid score (9), post 1 precedes post 2 in the post table, yet
`get_recommendations` returns `[2, 1]` — the tie comes out in *reverse*
table order, because pandas' descending sort reverses a stable ascending
argsort. -/
theorem c2_counterexample :
    hybrid_scores E2 (get_user_id exHash E2 "u") = [9, 9]
    ∧ E2.posts.map Post.id = [1, 2]
    ∧ get_recommendations exHash E2 "u" none none = [2, 1] := by
  refine ⟨?_, rfl, ?_⟩ <;>
    norm_num [hybrid_scores, content_scores, collaborative_score, reindex, dotQ,
      get_user_id, get_recommendations, rank_desc, ranked_rows, scored_rows,
      E2, exHash, List.enum, List.enumFrom, TOP_N_RECOMMENDATIONS]

/-- Claim C2 (amended): the returned sequence is the first `TOP_N` ids of
the ranked rows, and those rows are strictly ordered: descending by hybrid
score and, among equal scores, descending by original position in the
(filtered) post table — i.e. ties appear in reverse table order, not
original table order. -/
theorem c2_sorted_desc (hash : String → Int) (e : Engine) (username : String)
    (cid : Option Int) (mood : Option String) :
    get_recommendations hash e username cid mood
      = ((ranked_rows (scored_rows e (get_user_id hash e username) cid)).map
          (fun t => t.2.1)).take TOP_N_RECOMMENDATIONS
    ∧ (ranked_rows
        (scored_rows e (get_user_id hash e username) cid)).Pairwise desc_lex :=
  ⟨rfl, ranked_rows_pairwise_desc _⟩

/-- Claim C9: the `mood` argument is accepted but never read, so any two
calls differing only in `mood` return identical recommendation sequences. -/
theorem c9_mood_no_effect (hash : String → Int) (e : Engine) (username : String)
    (cid : Option Int) (mood1 mood2 : Option String) :
    get_recommendations hash e username cid mood1
      = get_recommendations hash e username cid mood2 := rfl

/-- Claim C10: under unique post ids, every returned sequence draws only
from the feature table's ids, contains no duplicates, and has length at
most `TOP_N_RECOMMENDATIONS`. -/
theorem c10_output_invariants (hash : String → Int) (e : Engine)
    (username : String) (cid : Option Int) (mood : Option String)
    (h : (e.posts.map Post.id).Nodup) :
    (∀ x ∈ get_recommendations hash e username cid mood, x ∈ e.posts.map Post.id)
    ∧ (get_recommendations hash e username cid mood).Nodup
    ∧ (get_recommendations hash e username cid mood).length
        ≤ TOP_N_RECOMMENDATIONS := by
  have hsub := scored_rows_map_fst_sublist e (get_user_id hash e username) cid
  refine ⟨?_, ?_, rank_desc_length _⟩
  · intro x hx
    exact hsub.subset (rank_desc_subset hx)
  · exact rank_desc_nodup (hsub.nodup h)

/-- Witness for C10 at a concrete input. -/
theorem c10_witness :
    (∀ x ∈ get_recommendations exHash E2 "u" none none, x ∈ E2.posts.map Post.id)
    ∧ (get_recommendations exHash E2 "u" none none).Nodup
    ∧ (get_recommendations exHash E2 "u" none none).length
        ≤ TOP_N_RECOMMENDATIONS :=
  c10_output_invariants exHash E2 "u" none none (by decide)

/-- Claim C3, as stated, is false for `category_id = 0`: the filter sits
under `if category_id:` so a zero id is falsy and the filter is skipped
entirely.  In `E2` no post has category `0` (the categories are a dict with
id `3` and a missing category), yet the call with `category_id = 0` returns
the full unfiltered ranking instead of an empty one. -/
theorem c3_counterexample :
    E2.posts.map Post.category = [some (some 3), none]
    ∧ get_recommendations exHash E2 "u" (some 0) none = [2, 1] := by
  refine ⟨rfl, ?_⟩
  norm_num [get_recommendations, rank_desc, ranked_rows, scored_rows,
    hybrid_scores, content_scores, collaborative_score, reindex, dotQ,
    get_user_id, E2, exHash, List.enum, List.enumFrom, TOP_N_RECOMMENDATIONS]

/-- Claim C3 (amended): for every *nonzero* `category_id`, the result is
restricted to posts whose category dict carries exactly that id — posts
with a missing/falsy category or a different id are excluded — and a
category with no matching posts yields the empty list, not an error;
`category_id = 0` (like `None`) disables the filter. -/
theorem c3_category_filter (hash : String → Int) (e : Engine)
    (username : String) (c : Int) (mood : Option String) (hc : c ≠ 0) :
    (∀ x ∈ get_recommendations hash e username (some c) mood,
       ∃ p, p ∈ e.posts ∧ p.id = x ∧ p.category = some (some c))
    ∧ ((∀ p ∈ e.posts, p.category ≠ some (some c)) →
        get_recommendations hash e username (some c) mood = []) := by
  constructor
  · intro x hx
    have hx' : x ∈ (scored_rows e (get_user_id hash e username) (some c)).map
        Prod.fst := rank_desc_subset hx
    rw [scored_rows_some e _ c hc, List.map_map] at hx'
    rcases List.mem_map.mp hx' with ⟨r, hr, hxr⟩
    rcases List.mem_filter.mp hr with ⟨hrz, hrc⟩
    obtain ⟨p, q⟩ := r
    exact ⟨p, (List.mem_zip hrz).1, hxr, (category_matches_iff c _).mp hrc⟩
  · intro hnone
    have hfil : (e.posts.zip (hybrid_scores e (get_user_id hash e username))).filter
        (fun r => category_matches c r.1.category) = [] := by
      rw [List.filter_eq_nil_iff]
      rintro ⟨p, q⟩ hpq hmatch
      exact hnone p (List.mem_zip hpq).1 ((category_matches_iff c _).mp hmatch)
    show rank_desc (scored_rows e (get_user_id hash e username) (some c)) = []
    rw [scored_rows_some e _ c hc, hfil]
    rfl

/-- Witness for the amended C3 at a concrete input (category 3 keeps only
post 1 in `E2`). -/
theorem c3_witness :
    (∀ x ∈ get_recommendations exHash E2 "u" (some 3) none,
       ∃ p, p ∈ E2.posts ∧ p.id = x ∧ p.category = some (some 3))
    ∧ ((∀ p ∈ E2.posts, p.category ≠ some (some 3)) →
        get_recommendations exHash E2 "u" (some 3) none = []) :=
  ⟨(c3_category_filter exHash E2 "u" 3 none (by decide)).1,
   (c3_category_filter exHash E2 "u" 3 none (by decide)).2⟩

/-- Claim C4: construction of the collaborative model succeeds exactly when
at least 2 distinct users and 2 distinct posts carry ratings — equivalently
exactly when the truncated-SVD rank `k = min(50, min(#users, #posts) - 1)`
satisfies `k ≥ 1`; otherwise it fails with the insufficient-data condition,
with no silent fallback. -/
theorem c4_construction_iff
    (svd : List (List ℚ) → Nat → (List (List ℚ) × List ℚ × List (List ℚ)))
    (l : List Interaction) :
    ((prepare_collaborative_model svd l).isOk = true
      ↔ (2 ≤ (sorted_unique (l.map (fun i => i.user_id))).length
          ∧ 2 ≤ (sorted_unique (l.map (fun i => i.post_id))).length))
    ∧ ((prepare_collaborative_model svd l).isOk = true
      ↔ 1 ≤ min (50 : Int)
          (min ((sorted_unique (l.map (fun i => i.user_id))).length : Int)
            ((sorted_unique (l.map (fun i => i.post_id))).length : Int) - 1)) := by
  have hiff : (prepare_collaborative_model svd l).isOk = true
      ↔ (0 < min (50 : Int)
            (min ((sorted_unique (l.map (fun i => i.user_id))).length : Int)
              ((sorted_unique (l.map (fun i => i.post_id))).length : Int) - 1)
          ∧ min (50 : Int)
              (min ((sorted_unique (l.map (fun i => i.user_id))).length : Int)
                ((sorted_unique (l.map (fun i => i.post_id))).length : Int) - 1)
            < min ((sorted_unique (l.map (fun i => i.user_id))).length : Int)
                ((sorted_unique (l.map (fun i => i.post_id))).length : Int)) := by
    simp only [prepare_collaborative_model]
    split_ifs with h
    · exact iff_of_true rfl h
    · exact iff_of_false (by simp [Except.isOk, Except.toBool]) h
  constructor
  · rw [hiff]; omega
  · rw [hiff]; omega

/-- Claim C5, as stated, is false: the per-user `try/except` inside
`evaluate` swallows failures.  With a scorer that raises for user `5` —
who is in the known-user list, so the guarded block does run — `evaluate`
still returns a metrics result, computed from user `7`'s pairs alone,
instead of surfacing the failure to its caller. -/
theorem c5_counterexample :
    badScore 5 = .error "boom"
    ∧ (5 : Int) ∈ unique_users gtB
    ∧ (5 : Int) ∈ ([5, 7] : List Int)
    ∧ evaluate_with badScore [5, 7] gtB = some (10, 100) := by
  refine ⟨rfl, by decide, by decide, ?_⟩
  norm_num [evaluate_with, accumulate_pairs, unique_users, unique_vals,
    user_pairs, mae_of, mse_of, reindex, badScore, gtB]

/-- Claim C5 (amended): per-user computational failures inside `evaluate`'s
loop are caught and suppressed, not propagated: the accumulated pairs are
exactly those of the known users whose computation succeeds, each failing
user contributing nothing, and a metrics result is still produced from the
remaining pairs. -/
theorem c5_errors_suppressed (score : Int → Except String (List (Int × ℚ)))
    (uids : List Int) (gt : List Interaction) :
    accumulate_pairs score uids gt
      = ((unique_users gt).filter (fun u => decide (u ∈ uids))).flatMap
          (pairs_of_user score gt)
    ∧ ∀ u, (score u).isOk = false → pairs_of_user score gt u = [] := by
  refine ⟨accumulate_pairs_eq score uids gt, ?_⟩
  intro u hu
  cases hs : score u with
  | ok s =>
      rw [hs] at hu
      exact absurd hu (by simp [Except.isOk, Except.toBool])
  | error msg => simp only [pairs_of_user, hs]

/-- Witness for the amended C5 at a concrete input. -/
theorem c5_witness :
    accumulate_pairs badScore [5, 7] gtB
      = ((unique_users gtB).filter
          (fun u => decide (u ∈ ([5, 7] : List Int)))).flatMap
            (pairs_of_user badScore gtB)
    ∧ pairs_of_user badScore gtB 5 = [] :=
  ⟨(c5_errors_suppressed badScore [5, 7] gtB).1,
   (c5_errors_suppressed badScore [5, 7] gtB).2 5 (by decide)⟩

/-- Claim C6: for a user id unknown to the collaborative model, the
collaborative score Series is zero at every post id of the feature table,
and the hybrid score of every post collapses to exactly
`0.6 × content_score`.  (The length hypothesis states that the similarity
matrix has one row per post, which construction guarantees.) -/
theorem c6_unknown_user_content_only (e : Engine) (uid : Int)
    (hu : uid ∉ e.user_ids)
    (hlen : e.content_similarity_matrix.length = e.posts.length) :
    collaborative_score e uid = e.posts.map (fun p => (p.id, (0 : ℚ)))
    ∧ hybrid_scores e uid = (content_scores e).map (fun c => (0.6 : ℚ) * c) := by
  have hcoll : collaborative_score e uid = e.posts.map (fun p => (p.id, (0 : ℚ))) := by
    rw [collaborative_score, if_pos hu]
  refine ⟨hcoll, ?_⟩
  rw [hybrid_scores, hcoll, reindex_zero_series]
  refine zipWith_hybrid_const_zero (content_scores e)
    (e.posts.map (fun p => p.id)) (le_of_eq ?_)
  rw [content_scores, List.length_map, List.length_map, hlen]

/-- Witness for C6 at a concrete input (user 9 is unknown to `E2`). -/
theorem c6_witness :
    collaborative_score E2 9 = E2.posts.map (fun p => (p.id, (0 : ℚ)))
    ∧ hybrid_scores E2 9 = (content_scores E2).map (fun c => (0.6 : ℚ) * c) :=
  c6_unknown_user_content_only E2 9 (by decide) (by decide)

/-- Claim C7: `evaluate` returns the infinite sentinel (modelled `none`)
exactly when no pairs can accumulate — the ground truth is empty or no
ground-truth user is known to the collaborative model — and otherwise
returns the MAE and (squared) RMSE computed over the accumulated pairs. -/
theorem c7_evaluate_sentinel (e : Engine) (gt : List Interaction) :
    (evaluate e gt = none
      ↔ (gt = [] ∨ ∀ u ∈ unique_users gt, u ∉ e.user_ids))
    ∧ (∀ m s : ℚ, evaluate e gt = some (m, s) →
        m = mae_of (accumulate_pairs
              (fun uid => .ok (collaborative_score e uid)) e.user_ids gt)
        ∧ s = mse_of (accumulate_pairs
              (fun uid => .ok (collaborative_score e uid)) e.user_ids gt)) :=
  ⟨evaluate_none_iff e gt,
   fun _ _ h => ⟨(evaluate_eq_some h).2.1, (evaluate_eq_some h).2.2⟩⟩

/-- Witness for C7: the sentinel on empty ground truth, and the computed
metrics on a one-pair ground truth. -/
theorem c7_witness :
    evaluate E2 [] = none
    ∧ ((77 : ℚ) = mae_of (accumulate_pairs
          (fun uid => .ok (collaborative_score E2 uid)) E2.user_ids gtA)
        ∧ (5929 : ℚ) = mse_of (accumulate_pairs
          (fun uid => .ok (collaborative_score E2 uid)) E2.user_ids gtA)) :=
  ⟨(c7_evaluate_sentinel E2 []).1.mpr (Or.inl rfl),
   (c7_evaluate_sentinel E2 gtA).2 77 5929 (by
      norm_num [evaluate, evaluate_with, accumulate_pairs, unique_users,
        unique_vals, user_pairs, collaborative_score, reindex, dotQ,
        mae_of, mse_of, E2, gtA, List.indexOf, List.findIdx, List.findIdx.go])⟩

/-- Claim C8: whenever `evaluate` produces metrics, `0 ≤ MAE ≤ RMSE`, where
the returned RMSE is the square root of the mean squared error `s`. -/
theorem c8_mae_le_rmse (e : Engine) (gt : List Interaction) (m s : ℚ)
    (h : evaluate e gt = some (m, s)) :
    0 ≤ m ∧ (m : ℝ) ≤ Real.sqrt (s : ℝ) := by
  obtain ⟨hne, hm, hs⟩ := evaluate_eq_some h
  subst hm
  subst hs
  set pairs := accumulate_pairs
    (fun uid => .ok (collaborative_score e uid)) e.user_ids gt with hp
  refine ⟨mae_of_nonneg _, ?_⟩
  have h1 : (0 : ℝ) ≤ ((mae_of pairs : ℚ) : ℝ) := by
    exact_mod_cast mae_of_nonneg pairs
  have h2 : (0 : ℝ) ≤ ((mse_of pairs : ℚ) : ℝ) := by
    exact_mod_cast mse_of_nonneg pairs
  rw [Real.le_sqrt h1 h2]
  exact_mod_cast mae_sq_le_mse pairs hne

/-- Witness for C8 at a concrete input (`MAE = 77`, `MSE = 5929`,
`RMSE = 77`). -/
theorem c8_witness : 0 ≤ (77 : ℚ) ∧ ((77 : ℚ) : ℝ) ≤ Real.sqrt ((5929 : ℚ) : ℝ) :=
  c8_mae_le_rmse E2 gtA 77 5929 (by
    norm_num [evaluate, evaluate_with, accumulate_pairs, unique_users,
      unique_vals, user_pairs, collaborative_score, reindex, dotQ,
      mae_of, mse_of, E2, gtA, List.indexOf, List.findIdx, List.findIdx.go])
